import Mathlib

/-!
Shallow embedding of the Game of Life simulation engine in `gol.cpp`.

The repository contains three variants of the same engine:
* variant 1 (`GameOfLife::step`/`start`, offset pairs with branch-based wraparound),
* variant 2 (`GameOfLife::step`/`run`, precomputed prev/next neighbor-index tables),
* variant 3 (`GameOfLife::step`/`start`, static offset arrays with branch-based wraparound,
  plus static-board and empty-board stop checks).

A grid is modeled as its dimensions together with the row-major flat list of
boolean cells (spec section 3 and variants 2 and 3 use exactly this layout;
variant 1's `bool**` two-dimensional array has the same row-major content).
The generation transition is pure: `step` returns the new "next" buffer as a
new grid, leaving the argument (the "current" buffer) untouched, which models
the double-buffer write/swap discipline of the C++ code.  The run loops are
modeled as structural recursion on the number of remaining iterations, and the
text the program prints is modeled by a list of abstract output events.
-/

/-- A toroidal grid: dimensions and the row-major flat cell buffer. -/
structure Grid where
  rows : Nat
  cols : Nat
  cells : List Bool
deriving DecidableEq, Repr

/-- Read the current buffer at `(i, j)` using row-major indexing `i*cols + j`
(`_cell[i][j]` in variant 1, `_grid[i*_col + j]` in variants 2 and 3).
Out-of-range reads default to dead, which never happens for the in-range
pre-wrapped indices the engine produces. -/
def cellAt (g : Grid) (i j : Nat) : Bool :=
  g.cells.getD (i * g.cols + j) false

/-- Read with signed indices (after wraparound they are nonnegative). -/
def cellAtI (g : Grid) (i j : Int) : Bool :=
  cellAt g i.toNat j.toNat

/-- Variant 1's `_neighborOffset` member: the eight (row, col) offsets. -/
def neighborOffset : List (Int × Int) :=
  [(-1, -1), (0, -1), (1, -1), (-1, 0), (1, 0), (-1, 1), (0, 1), (1, 1)]

/-- Branch-based toroidal wraparound used by variants 1 and 3:
`if (ni < 0) ni += n; else if (ni >= n) ni -= n;`. -/
def wrapIdx (n : Nat) (x : Int) : Int :=
  if x < 0 then x + n else if (n : Int) ≤ x then x - n else x

/-- Variant 1 neighbor count: fold over the `_neighborOffset` vector with
branch-based wraparound. -/
def count1 (g : Grid) (i j : Nat) : Nat :=
  neighborOffset.foldl
    (fun cnt n =>
      cnt +
        (if cellAtI g (wrapIdx g.rows ((i : Int) + n.1)) (wrapIdx g.cols ((j : Int) + n.2))
         then 1 else 0))
    0

/-- Variant 2's precomputed `_prevR[i] = (i + rows - 1) % rows`. -/
def prevR (g : Grid) (i : Nat) : Nat := (i + g.rows - 1) % g.rows

/-- Variant 2's precomputed `_nextR[i] = (i + 1) % rows`. -/
def nextR (g : Grid) (i : Nat) : Nat := (i + 1) % g.rows

/-- Variant 2's precomputed `_prevC[j] = (j + cols - 1) % cols`. -/
def prevC (g : Grid) (j : Nat) : Nat := (j + g.cols - 1) % g.cols

/-- Variant 2's precomputed `_nextC[j] = (j + 1) % cols`. -/
def nextC (g : Grid) (j : Nat) : Nat := (j + 1) % g.cols

/-- Variant 2 stores cells as `uint8_t` values 0/1 and sums them directly. -/
def cellVal (g : Grid) (i j : Nat) : Nat :=
  if cellAt g i j then 1 else 0

/-- Variant 2 neighbor count: the eight explicit table-indexed reads, in the
order of the unrolled `count += g[...]` statements. -/
def count2 (g : Grid) (i j : Nat) : Nat :=
  cellVal g (prevR g i) (prevC g j) + cellVal g (prevR g i) j +
    cellVal g (prevR g i) (nextC g j) + cellVal g i (prevC g j) +
    cellVal g i (nextC g j) + cellVal g (nextR g i) (prevC g j) +
    cellVal g (nextR g i) j + cellVal g (nextR g i) (nextC g j)

/-- Variant 3's static `dx` offset array. -/
def dxOff : List Int := [-1, 0, 1, -1, 1, -1, 0, 1]

/-- Variant 3's static `dy` offset array. -/
def dyOff : List Int := [-1, -1, -1, 0, 0, 1, 1, 1]

/-- Variant 3 neighbor count: loop `d = 0..7` over the static offset arrays
with branch-based wraparound. -/
def count3 (g : Grid) (i j : Nat) : Nat :=
  (List.range 8).foldl
    (fun cnt d =>
      cnt +
        (if cellAtI g (wrapIdx g.rows ((i : Int) + dxOff.getD d 0))
              (wrapIdx g.cols ((j : Int) + dyOff.getD d 0))
         then 1 else 0))
    0

/-- The birth-3 / survive-2-or-3 rule applied to one cell, variant 1:
`_nextCycle[i][j] = (count == 3) || (_cell[i][j] && count == 2)`. -/
def nextCell1 (g : Grid) (i j : Nat) : Bool :=
  (count1 g i j == 3) || (cellAt g i j && (count1 g i j == 2))

/-- The rule applied to one cell, variant 2. -/
def nextCell2 (g : Grid) (i j : Nat) : Bool :=
  (count2 g i j == 3) || (cellAt g i j && (count2 g i j == 2))

/-- The rule applied to one cell, variant 3. -/
def nextCell3 (g : Grid) (i j : Nat) : Bool :=
  (count3 g i j == 3) || (cellAt g i j && (count3 g i j == 2))

/-- One generation transition, variant 1.  The double loop over `(i, j)`
writing `_nextCycle[i][j]` is the row-major map over flat indices; the
subsequent `update()` pointer swap makes the written buffer current, which the
pure model expresses by returning the new grid. -/
def step1 (g : Grid) : Grid :=
  ⟨g.rows, g.cols,
    (List.range (g.rows * g.cols)).map (fun idx => nextCell1 g (idx / g.cols) (idx % g.cols))⟩

/-- One generation transition, variant 2 (its `step()` ends with `_grid.swap(_next)`). -/
def step2 (g : Grid) : Grid :=
  ⟨g.rows, g.cols,
    (List.range (g.rows * g.cols)).map (fun idx => nextCell2 g (idx / g.cols) (idx % g.cols))⟩

/-- One generation transition, variant 3. -/
def step3 (g : Grid) : Grid :=
  ⟨g.rows, g.cols,
    (List.range (g.rows * g.cols)).map (fun idx => nextCell3 g (idx / g.cols) (idx % g.cols))⟩

/-- 2^64, the modulus of the C++ `uint64_t` arithmetic in the fingerprint. -/
def M64 : Nat := 2 ^ 64

/-- The identical `splitmix64` avalanche mixer of all three variants. -/
def splitmix64 (x0 : Nat) : Nat :=
  let x1 := (x0 + 0x9e3779b97f4a7c15) % M64
  let x2 := ((x1 ^^^ (x1 >>> 30)) * 0xbf58476d1ce4e5b9) % M64
  let x3 := ((x2 ^^^ (x2 >>> 27)) * 0x94d049bb133111eb) % M64
  x3 ^^^ (x3 >>> 31)

/-- The identical `hash_combine` of all three variants:
`k = splitmix64(k); h ^= k + 0x9e3779b97f4a7c15 + (h << 6) + (h >> 2);`
with every addition and the shift taken modulo 2^64. -/
def hash_combine (h k0 : Nat) : Nat :=
  let k := splitmix64 k0
  h ^^^ ((k + 0x9e3779b97f4a7c15 + (h <<< 6) + (h >>> 2)) % M64)

/-- The fixed seed `0x243f6a8885a308d3` that `hashState` starts from. -/
def seedHash : Nat := 0x243f6a8885a308d3

/-- The bit-packing loop of `hashState`: walk the flat cell list, set bit
`bitpos` of `word` for each live cell, combine each filled 64-bit word, and
after the loop combine the leftover word if `bitpos` is nonzero. -/
def hashCells : List Bool → Nat → Nat → Nat → Nat
  | [], h, word, bitpos => if bitpos = 0 then h else hash_combine h word
  | b :: rest, h, word, bitpos =>
    let word2 := if b then word ||| (1 <<< bitpos) else word
    if bitpos + 1 = 64 then hashCells rest (hash_combine h word2) 0 0
    else hashCells rest h word2 (bitpos + 1)

/-- The state fingerprint (`hashState`, identical in all three variants; in
variant 2 the `rows`/`cols` prefix is cached as `_baseHash` at `init`, with the
same value): seed, combine `rows`, combine `cols`, then the packed cell words. -/
def hashState (g : Grid) : Nat :=
  hashCells g.cells (hash_combine (hash_combine seedHash g.rows) g.cols) 0 0

/-- Variant 3's `isEmptyBoard`: no live cell in the current buffer. -/
def isEmptyBoard (g : Grid) : Bool :=
  g.cells.all (fun b => !b)

/-- Terminal outcome of a run (spec section 4.5 state machine; the stop
generation number the corresponding notice prints is carried along). -/
inductive Status where
  | completed : Status
  | stoppedByCycle : Nat → Status
  | stoppedStatic : Nat → Status
  | stoppedEmpty : Nat → Status
deriving DecidableEq, Repr

/-- Abstract output events of a run, in emission order.
`frame n cells` is a `Cycle: n` header followed by the board;
`finalFrame n cells` is variant 2's `Final cycle: n` header plus board;
`boardOnly cells` is a bare `display()` with no header;
the notice events are the single-line stop messages. -/
inductive Ev where
  | frame : Nat → List Bool → Ev
  | finalFrame : Nat → List Bool → Ev
  | cycleNotice : Nat → Ev
  | staticNotice : Nat → Ev
  | emptyNotice : Nat → Ev
  | boardOnly : List Bool → Ev
deriving DecidableEq, Repr

/-- Result of a run: emitted events, final grid, final visited-fingerprint
set (modeled as the list of inserted fingerprints, most recent first), the
terminal status, and `done`, a ghost counter of the generations that completed
without triggering any stop condition. -/
structure RunResult where
  events : List Ev
  grid : Grid
  hist : List Nat
  status : Status
  done : Nat
deriving DecidableEq, Repr

/-- Variant 2's `run` loop `for (t = 1; t <= steps; ++t)`, recursing on the
number of remaining iterations.  Each iteration steps, then (when cycle
detection is on) checks the new fingerprint against the visited set: a hit
prints the notice, displays the board when in final-only mode, and returns;
a miss inserts the fingerprint.  Without final-only mode the frame for
generation `t` is printed. -/
def run2Loop (detect fin : Bool) (g : Grid) (hist : List Nat) (t : Nat) : Nat → RunResult
  | 0 => ⟨[], g, hist, .completed, 0⟩
  | rem + 1 =>
    let g2 := step2 g
    if detect = true ∧ hashState g2 ∈ hist then
      ⟨[Ev.cycleNotice t] ++ (if fin then [Ev.boardOnly g2.cells] else []),
        g2, hist, .stoppedByCycle t, 0⟩
    else
      let hist2 := if detect then hashState g2 :: hist else hist
      let r := run2Loop detect fin g2 hist2 (t + 1) rem
      ⟨(if fin then [] else [Ev.frame t g2.cells]) ++ r.events,
        r.grid, r.hist, r.status, r.done + 1⟩

/-- Variant 2's `run`: print generation 0 unless final-only, insert the
initial fingerprint when cycle detection is on, run the loop, and if the loop
was not left by the cycle `return`, print the `Final cycle: steps` frame in
final-only mode. -/
def run2 (g : Grid) (steps : Nat) (fin detect : Bool) : RunResult :=
  let pre := if fin then [] else [Ev.frame 0 g.cells]
  let hist0 := if detect then [hashState g] else []
  let r := run2Loop detect fin g hist0 1 steps
  let post :=
    if fin = true ∧ r.status = Status.completed then [Ev.finalFrame steps r.grid.cells] else []
  ⟨pre ++ r.events ++ post, r.grid, r.hist, r.status, r.done⟩

/-- Variant 3's `start` loop `for (i = 0; i < steps; i++)`.  Per iteration:
the cycle check on the current state (when detection is on), then the
transition, then — only when detection is off — the static-board check, then
the empty-board check (`currHash == 0 || isEmptyBoard()`), and finally the
frame print for `!finalOnly || i == steps - 1`.  The C++ `boardStatic` and
`boardEmpty` flags are dead stores (each is set immediately before `break`
and never read while true), so they are not part of the state. -/
def run3Loop (detect fin : Bool) (steps : Nat) (g : Grid) (hist : List Nat) (i : Nat) :
    Nat → RunResult
  | 0 => ⟨[], g, hist, .completed, 0⟩
  | rem + 1 =>
    if detect = true ∧ hashState g ∈ hist then
      ⟨[Ev.cycleNotice i], g, hist, .stoppedByCycle i, 0⟩
    else
      let hist2 := if detect then hashState g :: hist else hist
      let g2 := step3 g
      if detect = false ∧ hashState g = hashState g2 then
        ⟨[Ev.staticNotice (i + 1)] ++ (if fin then [Ev.frame (i + 1) g2.cells] else []),
          g2, hist2, .stoppedStatic (i + 1), 0⟩
      else if hashState g2 = 0 ∨ isEmptyBoard g2 = true then
        ⟨[Ev.emptyNotice (i + 1)] ++ (if fin then [Ev.frame (i + 1) g2.cells] else []),
          g2, hist2, .stoppedEmpty (i + 1), 0⟩
      else
        let r := run3Loop detect fin steps g2 hist2 (i + 1) rem
        ⟨(if fin = false ∨ i = steps - 1 then [Ev.frame (i + 1) g2.cells] else []) ++ r.events,
          r.grid, r.hist, r.status, r.done + 1⟩

/-- Variant 3's `start`: initial frame unless final-only, then the loop. -/
def run3 (g : Grid) (steps : Nat) (fin detect : Bool) : RunResult :=
  let pre := if fin then [] else [Ev.frame 0 g.cells]
  let r := run3Loop detect fin steps g [] 0 steps
  ⟨pre ++ r.events, r.grid, r.hist, r.status, r.done⟩

/-- Variant 1's `start` loop: like variant 3's but with no static-board or
empty-board checks (its cycle notice prints no number; the iteration index at
which it fired is carried in the status and event for specification). -/
def run1Loop (detect fin : Bool) (steps : Nat) (g : Grid) (hist : List Nat) (i : Nat) :
    Nat → RunResult
  | 0 => ⟨[], g, hist, .completed, 0⟩
  | rem + 1 =>
    if detect = true ∧ hashState g ∈ hist then
      ⟨[Ev.cycleNotice i], g, hist, .stoppedByCycle i, 0⟩
    else
      let hist2 := if detect then hashState g :: hist else hist
      let g2 := step1 g
      let r := run1Loop detect fin steps g2 hist2 (i + 1) rem
      ⟨(if fin = false ∨ i = steps - 1 then [Ev.frame (i + 1) g2.cells] else []) ++ r.events,
        r.grid, r.hist, r.status, r.done + 1⟩

/-- Variant 1's `start`. -/
def run1 (g : Grid) (steps : Nat) (fin detect : Bool) : RunResult :=
  let pre := if fin then [] else [Ev.frame 0 g.cells]
  let r := run1Loop detect fin steps g [] 0 steps
  ⟨pre ++ r.events, r.grid, r.hist, r.status, r.done⟩

/-- Iterated transition, variant 1 (generation `n` of the run). -/
def iter1 (g : Grid) : Nat → Grid
  | 0 => g
  | n + 1 => step1 (iter1 g n)

/-- Iterated transition, variant 2. -/
def iter2 (g : Grid) : Nat → Grid
  | 0 => g
  | n + 1 => step2 (iter2 g n)

/-- Iterated transition, variant 3. -/
def iter3 (g : Grid) : Nat → Grid
  | 0 => g
  | n + 1 => step3 (iter3 g n)

/-- Fingerprint of generation `n` of the run beginning at `g` (variant 2). -/
def hseq (g : Grid) (n : Nat) : Nat := hashState (iter2 g n)

/-- Generation `t` repeats an earlier state's fingerprint. -/
def dupAt (g : Grid) (t : Nat) : Prop :=
  hseq g t ∈ (List.range t).map (hseq g)

instance (g : Grid) (t : Nat) : Decidable (dupAt g t) := by
  unfold dupAt; infer_instance

/-- The visited-fingerprint set after generations `0 .. k-1` have been
inserted, most recent first. -/
def histUpTo (g : Grid) (k : Nat) : List Nat :=
  ((List.range k).map (hseq g)).reverse

/-- The fingerprint sequence of generations `0 .. steps` (variant 2). -/
def hashSeq (g : Grid) (steps : Nat) : List Nat :=
  (List.range (steps + 1)).map (hseq g)

/-- The all-dead grid of a given shape. -/
def deadGrid (r c : Nat) : Grid :=
  ⟨r, c, List.replicate (r * c) false⟩

/-- A horizontal 3-cell blinker on a 6x6 grid: live cells (2,1), (2,2), (2,3). -/
def blinker : Grid :=
  ⟨6, 6, List.replicate 13 false ++ [true, true, true] ++ List.replicate 20 false⟩

/-- Variant 2's `init` board fill: one independent coin flip per cell in
row-major order, drawn from an external bit source (the seeded `mt19937_64`
and `uniform_int_distribution` are outside the core per spec section 1). -/
def initGrid (r c : Nat) (bits : Nat → Bool) : Grid :=
  ⟨r, c, (List.range (r * c)).map bits⟩

/-- The spec's description of a cell's eight toroidal neighbors, written with
mathematical modulus on signed coordinates. -/
def countSpec (g : Grid) (i j : Nat) : Nat :=
  (neighborOffset.map (fun n =>
    if cellAt g (((i : Int) + n.1) % (g.rows : Int)).toNat
         (((j : Int) + n.2) % (g.cols : Int)).toNat
    then 1 else 0)).sum

/-- Split the flat cell stream into groups of 64 (the last group may be
shorter), as the spec describes the fingerprint packing. -/
def chunks64 : List Bool → List (List Bool)
  | [] => []
  | b :: rest => ((b :: rest).take 64) :: chunks64 ((b :: rest).drop 64)
  termination_by l => l.length
  decreasing_by simp [List.length_drop]; omega

/-- The 64-bit word a group of cells packs to: bit position = position within
the group, 1 = alive (spec section 4.4). -/
def packWord (c : List Bool) : Nat :=
  (List.range c.length).foldl (fun w p => if c.getD p false then w ||| (1 <<< p) else w) 0

/-- The generation-number label of a frame event, if it is a frame. -/
def frameLabel : Ev → Option Nat
  | .frame n _ => some n
  | .finalFrame n _ => some n
  | _ => none

/-- Label and board of a frame event, if it is a frame. -/
def frameData : Ev → Option (Nat × List Bool)
  | .frame n c => some (n, c)
  | .finalFrame n c => some (n, c)
  | _ => none

/-- Whether an event puts board contents on the output (with or without a
frame header). -/
def isRender : Ev → Bool
  | .frame _ _ => true
  | .finalFrame _ _ => true
  | .boardOnly _ => true
  | _ => false

/-- The generation labels of the frames among a run's events, in order. -/
def frameLabels (evs : List Ev) : List Nat := evs.filterMap frameLabel

/-- The labeled frames among a run's events, in order. -/
def framesOf (evs : List Ev) : List (Nat × List Bool) := evs.filterMap frameData

/-- The board-rendering events among a run's events, in order. -/
def rendersOf (evs : List Ev) : List Ev := evs.filter isRender

/-- A deterministic bit source. -/
def bitsA : Nat → Bool := fun n => n % 2 == 0

/-- A bit source agreeing with `bitsA` on indices below 4 only. -/
def bitsB : Nat → Bool := fun n => if n < 4 then n % 2 == 0 else true

/-! ### Indexing helper lemmas -/

theorem getD_replicate_false (n k : Nat) : (List.replicate n false).getD k false = false := by
  induction n generalizing k with
  | zero => rfl
  | succ m ih =>
    cases k with
    | zero => rfl
    | succ k2 => simp only [List.replicate_succ, List.getD_cons_succ]; exact ih k2

theorem getD_map_range (f : Nat → Bool) (n k : Nat) (hk : k < n) :
    ((List.range n).map f).getD k false = f k := by
  rw [List.getD_eq_getElem _ _ (by simpa using hk)]
  simp

theorem flatIdx_lt (r c i j : Nat) (hi : i < r) (hj : j < c) : i * c + j < r * c := by
  calc i * c + j < i * c + c := by omega
  _ = (i + 1) * c := by ring
  _ ≤ r * c := Nat.mul_le_mul_right c (by omega)

theorem flatIdx_div (c i j : Nat) (hj : j < c) : (i * c + j) / c = i := by
  rw [Nat.add_comm, Nat.add_mul_div_right j i (by omega), Nat.div_eq_of_lt hj]
  omega

theorem flatIdx_mod (c i j : Nat) (hj : j < c) : (i * c + j) % c = j := by
  rw [Nat.add_comm, Nat.add_mul_mod_self_right, Nat.mod_eq_of_lt hj]

theorem cellAt_mk_map (r c : Nat) (f : Nat → Nat → Bool) (i j : Nat)
    (hi : i < r) (hj : j < c) :
    cellAt ⟨r, c, (List.range (r * c)).map (fun idx => f (idx / c) (idx % c))⟩ i j = f i j := by
  unfold cellAt
  simp only
  rw [getD_map_range _ _ _ (flatIdx_lt r c i j hi hj), flatIdx_div c i j hj,
    flatIdx_mod c i j hj]

/-! ### Wraparound arithmetic: branch-based wrap and signed modulus both agree
with variant 2's precomputed index tables on in-range inputs. -/

theorem wrap_pred (n i : Nat) (h : i < n) :
    (wrapIdx n ((i : Int) + -1)).toNat = (i + n - 1) % n := by
  unfold wrapIdx
  cases i with
  | zero =>
    rw [if_pos (by omega)]
    have hn : ((0 : Nat) : Int) + -1 + n = ((n - 1 : Nat) : Int) := by omega
    rw [hn, Int.toNat_natCast, Nat.mod_eq_of_lt (by omega)]
    omega
  | succ i2 =>
    rw [if_neg (by omega), if_neg (by omega)]
    have hv : ((i2 + 1 : Nat) : Int) + -1 = ((i2 : Nat) : Int) := by omega
    rw [hv, Int.toNat_natCast]
    have : i2 + 1 + n - 1 = i2 + n := by omega
    rw [this, Nat.add_mod_right, Nat.mod_eq_of_lt (by omega)]

theorem wrap_succ (n i : Nat) (h : i < n) :
    (wrapIdx n ((i : Int) + 1)).toNat = (i + 1) % n := by
  unfold wrapIdx
  rw [if_neg (by omega)]
  by_cases he : i + 1 = n
  · rw [if_pos (by omega)]
    have : ((i : Int) + 1) - n = 0 := by omega
    rw [this]
    have : i + 1 = n := he
    simp [this]
  · rw [if_neg (by omega)]
    have hv : ((i : Int) + 1) = ((i + 1 : Nat) : Int) := by omega
    rw [hv, Int.toNat_natCast, Nat.mod_eq_of_lt (by omega)]

theorem wrap_same (n i : Nat) (h : i < n) : (wrapIdx n ((i : Int) + 0)).toNat = i := by
  unfold wrapIdx
  rw [if_neg (by omega), if_neg (by omega)]
  omega

theorem emod_pred (n i : Nat) (h : i < n) :
    ((((i : Int) + -1) % (n : Int))).toNat = (i + n - 1) % n := by
  cases i with
  | zero =>
    have hsplit : ((0 : Nat) : Int) + -1 = ((n - 1 : Nat) : Int) + (n : Int) * (-1) := by omega
    rw [hsplit, Int.add_mul_emod_self_left, Int.emod_eq_of_lt (by omega) (by omega),
      Int.toNat_natCast, Nat.mod_eq_of_lt (by omega)]
    omega
  | succ i2 =>
    have hv : ((i2 + 1 : Nat) : Int) + -1 = ((i2 : Nat) : Int) := by omega
    rw [hv, Int.emod_eq_of_lt (by omega) (by omega), Int.toNat_natCast]
    have : i2 + 1 + n - 1 = i2 + n := by omega
    rw [this, Nat.add_mod_right, Nat.mod_eq_of_lt (by omega)]

theorem emod_succ (n i : Nat) :
    ((((i : Int) + 1) % (n : Int))).toNat = (i + 1) % n := by
  have hv : ((i : Int) + 1) = ((i + 1 : Nat) : Int) := by omega
  rw [hv, ← Int.natCast_mod, Int.toNat_natCast]

theorem emod_same (n i : Nat) (h : i < n) : ((((i : Int) + 0) % (n : Int))).toNat = i := by
  have hv : ((i : Int) + 0) = ((i : Nat) : Int) := by omega
  rw [hv, Int.emod_eq_of_lt (by omega) (by omega), Int.toNat_natCast]

/-! ### The three neighbor counts agree on in-range cells, and match the
spec-level toroidal neighborhood. -/

theorem count3_eq_count1 (g : Grid) (i j : Nat) : count3 g i j = count1 g i j := rfl

theorem count1_eq_count2 (g : Grid) (i j : Nat) (hi : i < g.rows) (hj : j < g.cols) :
    count1 g i j = count2 g i j := by
  simp only [count1, neighborOffset, List.foldl_cons, List.foldl_nil, cellAtI]
  simp only [wrap_pred g.rows i hi, wrap_succ g.rows i hi, wrap_same g.rows i hi,
    wrap_pred g.cols j hj, wrap_succ g.cols j hj, wrap_same g.cols j hj]
  simp only [count2, cellVal, prevR, nextR, prevC, nextC]
  ring

theorem countSpec_eq_count2 (g : Grid) (i j : Nat) (hi : i < g.rows) (hj : j < g.cols) :
    countSpec g i j = count2 g i j := by
  simp only [countSpec, neighborOffset, List.map_cons, List.map_nil, List.sum_cons,
    List.sum_nil]
  simp only [emod_pred g.rows i hi, emod_succ g.rows i, emod_same g.rows i hi,
    emod_pred g.cols j hj, emod_succ g.cols j, emod_same g.cols j hj]
  simp only [count2, cellVal, prevR, nextR, prevC, nextC]
  ring

/-! ### The three transition functions agree on every grid. -/

theorem step1_eq_step2 (g : Grid) : step1 g = step2 g := by
  unfold step1 step2
  refine congrArg (Grid.mk g.rows g.cols) ?_
  apply List.map_congr_left
  intro idx hidx
  have hidx2 : idx < g.rows * g.cols := List.mem_range.mp hidx
  have hc : 0 < g.cols := by
    rcases Nat.eq_zero_or_pos g.cols with h0 | h0
    · rw [h0, Nat.mul_zero] at hidx2; omega
    · exact h0
  have hi : idx / g.cols < g.rows := (Nat.div_lt_iff_lt_mul hc).mpr hidx2
  have hj : idx % g.cols < g.cols := Nat.mod_lt _ hc
  unfold nextCell1 nextCell2
  rw [count1_eq_count2 g _ _ hi hj]

theorem step3_eq_step2 (g : Grid) : step3 g = step2 g := by
  unfold step3 step2
  refine congrArg (Grid.mk g.rows g.cols) ?_
  apply List.map_congr_left
  intro idx hidx
  have hidx2 : idx < g.rows * g.cols := List.mem_range.mp hidx
  have hc : 0 < g.cols := by
    rcases Nat.eq_zero_or_pos g.cols with h0 | h0
    · rw [h0, Nat.mul_zero] at hidx2; omega
    · exact h0
  have hi : idx / g.cols < g.rows := (Nat.div_lt_iff_lt_mul hc).mpr hidx2
  have hj : idx % g.cols < g.cols := Nat.mod_lt _ hc
  unfold nextCell3 nextCell2
  rw [count3_eq_count1 g _ _, count1_eq_count2 g _ _ hi hj]

/-! ### The all-dead grid is a fixed point of the transition. -/

theorem cellAt_dead (r c i j : Nat) : cellAt (deadGrid r c) i j = false := by
  unfold cellAt deadGrid
  exact getD_replicate_false _ _

theorem count1_dead (r c i j : Nat) : count1 (deadGrid r c) i j = 0 := by
  simp only [count1, neighborOffset, List.foldl_cons, List.foldl_nil, cellAtI, cellAt_dead]
  simp

theorem nextCell3_dead (r c i j : Nat) : nextCell3 (deadGrid r c) i j = false := by
  unfold nextCell3
  rw [count3_eq_count1, count1_dead, cellAt_dead]
  simp

theorem step3_dead (r c : Nat) : step3 (deadGrid r c) = deadGrid r c := by
  refine congrArg (Grid.mk r c) ?_
  rw [List.eq_replicate_iff]
  constructor
  · simp [step3, deadGrid]
  · intro b hb
    obtain ⟨idx, hidx, hval⟩ := List.mem_map.mp hb
    rw [← hval]
    exact nextCell3_dead r c _ _

theorem iter3_dead (r c : Nat) : ∀ n, iter3 (deadGrid r c) n = deadGrid r c := by
  intro n
  induction n with
  | zero => rfl
  | succ m ih => unfold iter3; rw [ih, step3_dead]

/-! ### Reading a cell of the stepped grid. -/

theorem cellAt_step2 (g : Grid) (i j : Nat) (hi : i < g.rows) (hj : j < g.cols) :
    cellAt (step2 g) i j = nextCell2 g i j := by
  unfold step2
  exact cellAt_mk_map g.rows g.cols (fun a b => nextCell2 g a b) i j hi hj

/-! ### The packing loop of `hashState` equals the chunked fold of the spec. -/

theorem packWord_nil : packWord [] = 0 := rfl

theorem packWord_snoc (l : List Bool) (b : Bool) :
    packWord (l ++ [b]) = if b then packWord l ||| (1 <<< l.length) else packWord l := by
  unfold packWord
  have hlen : (l ++ [b]).length = l.length + 1 := by simp
  rw [hlen, List.range_succ, List.foldl_append]
  have hfold :
      (List.range l.length).foldl
          (fun w p => if (l ++ [b]).getD p false then w ||| (1 <<< p) else w) 0 =
        (List.range l.length).foldl
          (fun w p => if l.getD p false then w ||| (1 <<< p) else w) 0 := by
    apply List.foldl_ext
    intro a p hp
    rw [List.getD_append _ _ _ _ (List.mem_range.mp hp)]
  rw [hfold]
  simp only [List.foldl_cons, List.foldl_nil]
  rw [List.getD_append_right _ _ _ _ (Nat.le_refl _)]
  simp

theorem chunks64_cons (l : List Bool) (h : l ≠ []) :
    chunks64 l = l.take 64 :: chunks64 (l.drop 64) := by
  cases l with
  | nil => exact absurd rfl h
  | cons b rest => rw [chunks64]

theorem hashCells_chunks (l : List Bool) :
    ∀ (pre : List Bool) (h : Nat), pre.length < 64 →
      hashCells l h (packWord pre) pre.length =
        ((chunks64 (pre ++ l)).map packWord).foldl hash_combine h := by
  induction l with
  | nil =>
    intro pre h hlen
    by_cases h0 : pre.length = 0
    · have hpre : pre = [] := List.eq_nil_of_length_eq_zero h0
      subst hpre
      simp [hashCells, chunks64]
    · have hpre : pre ≠ [] := by
        intro hx; rw [hx] at h0; exact h0 rfl
      rw [List.append_nil, chunks64_cons pre hpre, List.take_of_length_le (by omega),
        List.drop_eq_nil_of_le (by omega)]
      simp [hashCells, chunks64, h0]
  | cons b rest ih =>
    intro pre h hlen
    have hsnoc : pre ++ b :: rest = (pre ++ [b]) ++ rest := by simp
    rw [hsnoc]
    show (if pre.length + 1 = 64 then
        hashCells rest (hash_combine h (if b then packWord pre ||| (1 <<< pre.length)
          else packWord pre)) 0 0
      else hashCells rest h (if b then packWord pre ||| (1 <<< pre.length) else packWord pre)
        (pre.length + 1)) = _
    rw [← packWord_snoc]
    by_cases hc : pre.length + 1 = 64
    · rw [if_pos hc]
      have h64 : (pre ++ [b]).length = 64 := by simp; omega
      have hne : (pre ++ [b]) ++ rest ≠ [] := by
        simp
      rw [chunks64_cons _ hne]
      have htake : ((pre ++ [b]) ++ rest).take 64 = pre ++ [b] := by
        rw [← h64]; exact List.take_left _ _
      have hdrop : ((pre ++ [b]) ++ rest).drop 64 = rest := by
        rw [← h64]; exact List.drop_left _ _
      rw [htake, hdrop, List.map_cons, List.foldl_cons]
      have hz := ih [] (hash_combine h (packWord (pre ++ [b]))) (by simp)
      simpa using hz
    · rw [if_neg hc]
      have hlen2 : (pre ++ [b]).length = pre.length + 1 := by simp
      have := ih (pre ++ [b]) h (by simp; omega)
      rw [hlen2] at this
      exact this

theorem hashState_chunks (g : Grid) :
    hashState g =
      ((chunks64 g.cells).map packWord).foldl hash_combine
        (hash_combine (hash_combine seedHash g.rows) g.cols) := by
  unfold hashState
  have := hashCells_chunks g.cells [] (hash_combine (hash_combine seedHash g.rows) g.cols)
    (by simp)
  simpa using this

/-! ### Unfolding lemmas for the run loops. -/

theorem run2Loop_zero (detect fin : Bool) (g : Grid) (hist : List Nat) (t : Nat) :
    run2Loop detect fin g hist t 0 = ⟨[], g, hist, .completed, 0⟩ := rfl

theorem run2Loop_succ_cycle (detect fin : Bool) (g : Grid) (hist : List Nat) (t rem : Nat)
    (h : detect = true ∧ hashState (step2 g) ∈ hist) :
    run2Loop detect fin g hist t (rem + 1) =
      ⟨[Ev.cycleNotice t] ++ (if fin then [Ev.boardOnly (step2 g).cells] else []),
        step2 g, hist, .stoppedByCycle t, 0⟩ := by
  simp only [run2Loop]
  rw [if_pos h]

theorem run2Loop_succ_go (detect fin : Bool) (g : Grid) (hist : List Nat) (t rem : Nat)
    (h : ¬(detect = true ∧ hashState (step2 g) ∈ hist)) :
    run2Loop detect fin g hist t (rem + 1) =
      (let hist2 := if detect then hashState (step2 g) :: hist else hist
       let r := run2Loop detect fin (step2 g) hist2 (t + 1) rem
       ⟨(if fin then [] else [Ev.frame t (step2 g).cells]) ++ r.events,
         r.grid, r.hist, r.status, r.done + 1⟩) := by
  simp only [run2Loop]
  rw [if_neg h]

theorem run2Loop_succ_go_t (fin : Bool) (g : Grid) (hist : List Nat) (t rem : Nat)
    (h : hashState (step2 g) ∉ hist) :
    run2Loop true fin g hist t (rem + 1) =
      (let r := run2Loop true fin (step2 g) (hashState (step2 g) :: hist) (t + 1) rem
       ⟨(if fin then [] else [Ev.frame t (step2 g).cells]) ++ r.events,
         r.grid, r.hist, r.status, r.done + 1⟩) := by
  rw [run2Loop_succ_go true fin g hist t rem (fun hx => h hx.2)]
  rfl

theorem run3Loop_zero (detect fin : Bool) (steps : Nat) (g : Grid) (hist : List Nat) (i : Nat) :
    run3Loop detect fin steps g hist i 0 = ⟨[], g, hist, .completed, 0⟩ := rfl

theorem run3Loop_succ_cycle (detect fin : Bool) (steps : Nat) (g : Grid) (hist : List Nat)
    (i rem : Nat) (h : detect = true ∧ hashState g ∈ hist) :
    run3Loop detect fin steps g hist i (rem + 1) =
      ⟨[Ev.cycleNotice i], g, hist, .stoppedByCycle i, 0⟩ := by
  simp only [run3Loop]
  rw [if_pos h]

theorem run3Loop_succ_static (detect fin : Bool) (steps : Nat) (g : Grid) (hist : List Nat)
    (i rem : Nat) (h1 : ¬(detect = true ∧ hashState g ∈ hist))
    (h2 : detect = false ∧ hashState g = hashState (step3 g)) :
    run3Loop detect fin steps g hist i (rem + 1) =
      ⟨[Ev.staticNotice (i + 1)] ++ (if fin then [Ev.frame (i + 1) (step3 g).cells] else []),
        step3 g, if detect then hashState g :: hist else hist, .stoppedStatic (i + 1), 0⟩ := by
  simp only [run3Loop]
  rw [if_neg h1, if_pos h2]

theorem run3Loop_succ_empty (detect fin : Bool) (steps : Nat) (g : Grid) (hist : List Nat)
    (i rem : Nat) (h1 : ¬(detect = true ∧ hashState g ∈ hist))
    (h2 : ¬(detect = false ∧ hashState g = hashState (step3 g)))
    (h3 : hashState (step3 g) = 0 ∨ isEmptyBoard (step3 g) = true) :
    run3Loop detect fin steps g hist i (rem + 1) =
      ⟨[Ev.emptyNotice (i + 1)] ++ (if fin then [Ev.frame (i + 1) (step3 g).cells] else []),
        step3 g, if detect then hashState g :: hist else hist, .stoppedEmpty (i + 1), 0⟩ := by
  simp only [run3Loop]
  rw [if_neg h1, if_neg h2, if_pos h3]

theorem run3Loop_succ_go (detect fin : Bool) (steps : Nat) (g : Grid) (hist : List Nat)
    (i rem : Nat) (h1 : ¬(detect = true ∧ hashState g ∈ hist))
    (h2 : ¬(detect = false ∧ hashState g = hashState (step3 g)))
    (h3 : ¬(hashState (step3 g) = 0 ∨ isEmptyBoard (step3 g) = true)) :
    run3Loop detect fin steps g hist i (rem + 1) =
      (let hist2 := if detect then hashState g :: hist else hist
       let r := run3Loop detect fin steps (step3 g) hist2 (i + 1) rem
       ⟨(if fin = false ∨ i = steps - 1 then [Ev.frame (i + 1) (step3 g).cells] else []) ++
           r.events,
         r.grid, r.hist, r.status, r.done + 1⟩) := by
  simp only [run3Loop]
  rw [if_neg h1, if_neg h2, if_neg h3]

theorem run1Loop_zero (detect fin : Bool) (steps : Nat) (g : Grid) (hist : List Nat) (i : Nat) :
    run1Loop detect fin steps g hist i 0 = ⟨[], g, hist, .completed, 0⟩ := rfl

theorem run1Loop_succ_cycle (detect fin : Bool) (steps : Nat) (g : Grid) (hist : List Nat)
    (i rem : Nat) (h : detect = true ∧ hashState g ∈ hist) :
    run1Loop detect fin steps g hist i (rem + 1) =
      ⟨[Ev.cycleNotice i], g, hist, .stoppedByCycle i, 0⟩ := by
  simp only [run1Loop]
  rw [if_pos h]

theorem run1Loop_succ_go (detect fin : Bool) (steps : Nat) (g : Grid) (hist : List Nat)
    (i rem : Nat) (h : ¬(detect = true ∧ hashState g ∈ hist)) :
    run1Loop detect fin steps g hist i (rem + 1) =
      (let hist2 := if detect then hashState g :: hist else hist
       let r := run1Loop detect fin steps (step1 g) hist2 (i + 1) rem
       ⟨(if fin = false ∨ i = steps - 1 then [Ev.frame (i + 1) (step1 g).cells] else []) ++
           r.events,
         r.grid, r.hist, r.status, r.done + 1⟩) := by
  simp only [run1Loop]
  rw [if_neg h]

/-! ### The visited-fingerprint history. -/

theorem histUpTo_succ (g : Grid) (k : Nat) :
    histUpTo g (k + 1) = hseq g k :: histUpTo g k := by
  unfold histUpTo
  rw [List.range_succ, List.map_append, List.reverse_append]
  simp

theorem mem_histUpTo (g : Grid) (k x : Nat) :
    x ∈ histUpTo g k ↔ x ∈ (List.range k).map (hseq g) := by
  unfold histUpTo
  exact List.mem_reverse

theorem nodup_histUpTo (g : Grid) (k : Nat) (h : ∀ u, u < k → ¬ dupAt g u) :
    (histUpTo g k).Nodup := by
  induction k with
  | zero => simp [histUpTo]
  | succ m ih =>
    rw [histUpTo_succ, List.nodup_cons]
    refine ⟨?_, ih (fun u hu => h u (by omega))⟩
    rw [mem_histUpTo]
    exact h m (by omega)

/-! ### Monotone growth of the visited set. -/

theorem run2Loop_hist_suffix (detect fin : Bool) :
    ∀ (rem : Nat) (g : Grid) (hist : List Nat) (t : Nat),
      hist.IsSuffix (run2Loop detect fin g hist t rem).hist := by
  intro rem
  induction rem with
  | zero =>
    intro g hist t
    rw [run2Loop_zero]
  | succ m ih =>
    intro g hist t
    by_cases hcy : detect = true ∧ hashState (step2 g) ∈ hist
    · rw [run2Loop_succ_cycle detect fin g hist t m hcy]
    · rw [run2Loop_succ_go detect fin g hist t m hcy]
      simp only
      cases detect with
      | false => simpa using ih (step2 g) hist (t + 1)
      | true =>
        simp only [if_pos rfl]
        exact (List.suffix_cons _ _).trans (ih (step2 g) (hashState (step2 g) :: hist) (t + 1))

theorem run1Loop_hist_suffix (detect fin : Bool) (steps : Nat) :
    ∀ (rem : Nat) (g : Grid) (hist : List Nat) (i : Nat),
      hist.IsSuffix (run1Loop detect fin steps g hist i rem).hist := by
  intro rem
  induction rem with
  | zero =>
    intro g hist i
    rw [run1Loop_zero]
  | succ m ih =>
    intro g hist i
    by_cases hcy : detect = true ∧ hashState g ∈ hist
    · rw [run1Loop_succ_cycle detect fin steps g hist i m hcy]
    · rw [run1Loop_succ_go detect fin steps g hist i m hcy]
      simp only
      cases detect with
      | false => simpa using ih (step1 g) hist (i + 1)
      | true =>
        simp only [if_pos rfl]
        exact (List.suffix_cons _ _).trans (ih (step1 g) (hashState g :: hist) (i + 1))

/-! ### Variant 2 cycle detection stops exactly at the first repeated
fingerprint; the visited set is exactly the previously produced fingerprints. -/

theorem run2Loop_cycle_spec (g0 : Grid) (fin : Bool) :
    ∀ (rem s : Nat), (∀ u, u ≤ s → ¬ dupAt g0 u) →
      ((run2Loop true fin (iter2 g0 s) (histUpTo g0 (s + 1)) (s + 1) rem).status =
            Status.completed →
          (run2Loop true fin (iter2 g0 s) (histUpTo g0 (s + 1)) (s + 1) rem).hist =
              histUpTo g0 (s + rem + 1) ∧
            ∀ u, u ≤ s + rem → ¬ dupAt g0 u) ∧
      (∀ t, (run2Loop true fin (iter2 g0 s) (histUpTo g0 (s + 1)) (s + 1) rem).status =
            Status.stoppedByCycle t →
          (s + 1 ≤ t ∧ t ≤ s + rem ∧ dupAt g0 t ∧ ∀ u, u < t → ¬ dupAt g0 u) ∧
            (run2Loop true fin (iter2 g0 s) (histUpTo g0 (s + 1)) (s + 1) rem).hist =
              histUpTo g0 t) ∧
      (∀ t, (s + 1 ≤ t ∧ t ≤ s + rem ∧ dupAt g0 t ∧ ∀ u, u < t → ¬ dupAt g0 u) →
          (run2Loop true fin (iter2 g0 s) (histUpTo g0 (s + 1)) (s + 1) rem).status =
            Status.stoppedByCycle t) ∧
      ((run2Loop true fin (iter2 g0 s) (histUpTo g0 (s + 1)) (s + 1) rem).status =
          Status.completed ∨
        ∃ t, (run2Loop true fin (iter2 g0 s) (histUpTo g0 (s + 1)) (s + 1) rem).status =
          Status.stoppedByCycle t) := by
  intro rem
  induction rem with
  | zero =>
    intro s hyp
    rw [run2Loop_zero]
    refine ⟨?_, ?_, ?_, Or.inl rfl⟩
    · intro _
      exact ⟨rfl, fun u hu => hyp u (by omega)⟩
    · intro t ht
      simp at ht
    · intro t ⟨h1, h2, _, _⟩
      omega
  | succ m ih =>
    intro s hyp
    have hmem : hashState (iter2 g0 (s + 1)) ∈ histUpTo g0 (s + 1) ↔ dupAt g0 (s + 1) := by
      rw [mem_histUpTo]
      exact Iff.rfl
    by_cases hdup : dupAt g0 (s + 1)
    · have hstop : (true : Bool) = true ∧
          hashState (step2 (iter2 g0 s)) ∈ histUpTo g0 (s + 1) :=
        ⟨rfl, hmem.mpr hdup⟩
      rw [run2Loop_succ_cycle true fin (iter2 g0 s) (histUpTo g0 (s + 1)) (s + 1) m hstop]
      refine ⟨?_, ?_, ?_, Or.inr ⟨s + 1, rfl⟩⟩
      · intro hc
        simp at hc
      · intro t ht
        have hts : s + 1 = t := by
          have ht2 : Status.stoppedByCycle (s + 1) = Status.stoppedByCycle t := ht
          injection ht2
        subst hts
        exact ⟨⟨Nat.le_refl _, by omega, hdup, fun u hu => hyp u (by omega)⟩, rfl⟩
      · intro t ⟨h1, h2, hdt, hmin⟩
        have hts : t = s + 1 := by
          by_contra hne
          exact hmin (s + 1) (by omega) hdup
        subst hts
        rfl
    · have hgo : hashState (step2 (iter2 g0 s)) ∉ histUpTo g0 (s + 1) := fun hm =>
        hdup (hmem.mp hm)
      rw [run2Loop_succ_go_t fin (iter2 g0 s) (histUpTo g0 (s + 1)) (s + 1) m hgo]
      have hcons : hashState (step2 (iter2 g0 s)) :: histUpTo g0 (s + 1) =
          histUpTo g0 (s + 1 + 1) := by
        rw [histUpTo_succ g0 (s + 1)]
        rfl
      have hstep : step2 (iter2 g0 s) = iter2 g0 (s + 1) := rfl
      rw [hcons, hstep]
      have hyp2 : ∀ u, u ≤ s + 1 → ¬ dupAt g0 u := by
        intro u hu
        rcases Nat.lt_or_ge u (s + 1) with hu2 | hu2
        · exact hyp u (by omega)
        · have : u = s + 1 := by omega
          rw [this]
          exact hdup
      obtain ⟨ihComp, ihCyc, ihCycIntro, ihOr⟩ := ih (s + 1) hyp2
      refine ⟨?_, ?_, ?_, ?_⟩
      · intro hc
        have hc2 := ihComp hc
        refine ⟨?_, fun u hu => hc2.2 u (by omega)⟩
        rw [hc2.1]
        rw [show s + 1 + m + 1 = s + (m + 1) + 1 from by omega]
      · intro t ht
        have h2 := ihCyc t ht
        exact ⟨⟨by omega, by omega, h2.1.2.2.1, h2.1.2.2.2⟩, h2.2⟩
      · intro t ⟨h1, h2, hdt, hmin⟩
        have hne : t ≠ s + 1 := by
          intro hx
          rw [hx] at hdt
          exact hdup hdt
        exact ihCycIntro t ⟨by omega, by omega, hdt, hmin⟩
      · exact ihOr

/-! ### Frames and renders of the run loops. -/

theorem frameLabels_append (a b : List Ev) :
    frameLabels (a ++ b) = frameLabels a ++ frameLabels b :=
  List.filterMap_append a b frameLabel

theorem framesOf_append (a b : List Ev) :
    framesOf (a ++ b) = framesOf a ++ framesOf b :=
  List.filterMap_append a b frameData

theorem rendersOf_append (a b : List Ev) :
    rendersOf (a ++ b) = rendersOf a ++ rendersOf b :=
  List.filter_append a b

theorem run2Loop_frames_norm (detect : Bool) :
    ∀ (rem : Nat) (g : Grid) (hist : List Nat) (t : Nat),
      frameLabels (run2Loop detect false g hist t rem).events =
        List.range' t (run2Loop detect false g hist t rem).done := by
  intro rem
  induction rem with
  | zero =>
    intro g hist t
    rw [run2Loop_zero]
    rfl
  | succ m ih =>
    intro g hist t
    by_cases hcy : detect = true ∧ hashState (step2 g) ∈ hist
    · rw [run2Loop_succ_cycle detect false g hist t m hcy]
      rfl
    · rw [run2Loop_succ_go detect false g hist t m hcy]
      simp only
      rw [frameLabels_append, ih (step2 g) _ (t + 1), List.range'_succ]
      rfl

theorem run2Loop_frames_fin (detect : Bool) :
    ∀ (rem : Nat) (g : Grid) (hist : List Nat) (t : Nat),
      framesOf (run2Loop detect true g hist t rem).events = [] ∧
      rendersOf (run2Loop detect true g hist t rem).events =
        (match (run2Loop detect true g hist t rem).status with
         | Status.stoppedByCycle _ =>
             [Ev.boardOnly (run2Loop detect true g hist t rem).grid.cells]
         | _ => []) ∧
      ((run2Loop detect true g hist t rem).status = Status.completed ∨
        ∃ u, (run2Loop detect true g hist t rem).status = Status.stoppedByCycle u) := by
  intro rem
  induction rem with
  | zero =>
    intro g hist t
    rw [run2Loop_zero]
    exact ⟨rfl, rfl, Or.inl rfl⟩
  | succ m ih =>
    intro g hist t
    by_cases hcy : detect = true ∧ hashState (step2 g) ∈ hist
    · rw [run2Loop_succ_cycle detect true g hist t m hcy]
      exact ⟨rfl, rfl, Or.inr ⟨t, rfl⟩⟩
    · rw [run2Loop_succ_go detect true g hist t m hcy]
      simp only
      exact ih (step2 g) _ (t + 1)

theorem run3Loop_frames_norm (detect : Bool) (steps : Nat) :
    ∀ (rem : Nat) (g : Grid) (hist : List Nat) (i : Nat),
      frameLabels (run3Loop detect false steps g hist i rem).events =
        List.range' (i + 1) (run3Loop detect false steps g hist i rem).done := by
  intro rem
  induction rem with
  | zero =>
    intro g hist i
    rw [run3Loop_zero]
    rfl
  | succ m ih =>
    intro g hist i
    by_cases h1 : detect = true ∧ hashState g ∈ hist
    · rw [run3Loop_succ_cycle detect false steps g hist i m h1]
      rfl
    · by_cases h2 : detect = false ∧ hashState g = hashState (step3 g)
      · rw [run3Loop_succ_static detect false steps g hist i m h1 h2]
        rfl
      · by_cases h3 : hashState (step3 g) = 0 ∨ isEmptyBoard (step3 g) = true
        · rw [run3Loop_succ_empty detect false steps g hist i m h1 h2 h3]
          rfl
        · rw [run3Loop_succ_go detect false steps g hist i m h1 h2 h3]
          simp only
          rw [if_pos (Or.inl trivial), frameLabels_append, ih (step3 g) _ (i + 1),
            List.range'_succ]
          rfl

theorem run3Loop_gen_bound (detect fin : Bool) (steps : Nat) :
    ∀ (rem : Nat) (g : Grid) (hist : List Nat) (i : Nat),
      (∀ t, (run3Loop detect fin steps g hist i rem).status = Status.stoppedByCycle t →
        i ≤ t) ∧
      (∀ s2, (run3Loop detect fin steps g hist i rem).status = Status.stoppedStatic s2 →
        i + 1 ≤ s2) ∧
      (∀ s2, (run3Loop detect fin steps g hist i rem).status = Status.stoppedEmpty s2 →
        i + 1 ≤ s2) := by
  intro rem
  induction rem with
  | zero =>
    intro g hist i
    rw [run3Loop_zero]
    refine ⟨?_, ?_, ?_⟩ <;> intro x hx <;> simp at hx
  | succ m ih =>
    intro g hist i
    by_cases h1 : detect = true ∧ hashState g ∈ hist
    · rw [run3Loop_succ_cycle detect fin steps g hist i m h1]
      refine ⟨?_, ?_, ?_⟩ <;> intro x hx
      · have hx2 : Status.stoppedByCycle i = Status.stoppedByCycle x := hx
        injection hx2 with h
        omega
      · simp at hx
      · simp at hx
    · by_cases h2 : detect = false ∧ hashState g = hashState (step3 g)
      · rw [run3Loop_succ_static detect fin steps g hist i m h1 h2]
        refine ⟨?_, ?_, ?_⟩ <;> intro x hx
        · simp at hx
        · have hx2 : Status.stoppedStatic (i + 1) = Status.stoppedStatic x := hx
          injection hx2 with h
          omega
        · simp at hx
      · by_cases h3 : hashState (step3 g) = 0 ∨ isEmptyBoard (step3 g) = true
        · rw [run3Loop_succ_empty detect fin steps g hist i m h1 h2 h3]
          refine ⟨?_, ?_, ?_⟩ <;> intro x hx
          · simp at hx
          · simp at hx
          · have hx2 : Status.stoppedEmpty (i + 1) = Status.stoppedEmpty x := hx
            injection hx2 with h
            omega
        · rw [run3Loop_succ_go detect fin steps g hist i m h1 h2 h3]
          simp only
          obtain ⟨ihc, ihs, ihe⟩ := ih (step3 g) (if detect then hashState g :: hist else hist)
            (i + 1)
          refine ⟨?_, ?_, ?_⟩ <;> intro x hx
          · exact Nat.le_of_succ_le (ihc x hx)
          · exact Nat.le_of_succ_le (ihs x hx)
          · exact Nat.le_of_succ_le (ihe x hx)

theorem run3Loop_frames_fin (detect : Bool) (steps : Nat) :
    ∀ (rem : Nat) (g : Grid) (hist : List Nat) (i : Nat), i + rem = steps →
      framesOf (run3Loop detect true steps g hist i rem).events =
        (if rem = 0 then []
         else
           match (run3Loop detect true steps g hist i rem).status with
           | Status.completed =>
               [(steps, (run3Loop detect true steps g hist i rem).grid.cells)]
           | Status.stoppedByCycle _ => []
           | Status.stoppedStatic s2 =>
               [(s2, (run3Loop detect true steps g hist i rem).grid.cells)]
           | Status.stoppedEmpty s2 =>
               [(s2, (run3Loop detect true steps g hist i rem).grid.cells)]) ∧
      rendersOf (run3Loop detect true steps g hist i rem).events =
        (framesOf (run3Loop detect true steps g hist i rem).events).map
          (fun p => Ev.frame p.1 p.2) := by
  intro rem
  induction rem with
  | zero =>
    intro g hist i hsum
    rw [run3Loop_zero]
    exact ⟨rfl, rfl⟩
  | succ m ih =>
    intro g hist i hsum
    by_cases h1 : detect = true ∧ hashState g ∈ hist
    · rw [run3Loop_succ_cycle detect true steps g hist i m h1]
      exact ⟨rfl, rfl⟩
    · by_cases h2 : detect = false ∧ hashState g = hashState (step3 g)
      · rw [run3Loop_succ_static detect true steps g hist i m h1 h2]
        exact ⟨rfl, rfl⟩
      · by_cases h3 : hashState (step3 g) = 0 ∨ isEmptyBoard (step3 g) = true
        · rw [run3Loop_succ_empty detect true steps g hist i m h1 h2 h3]
          exact ⟨rfl, rfl⟩
        · rw [run3Loop_succ_go detect true steps g hist i m h1 h2 h3]
          simp only
          cases m with
          | zero =>
            have hi : i = steps - 1 := by omega
            have hst : i + 1 = steps := by omega
            rw [if_pos (Or.inr hi), run3Loop_zero]
            simp only [hst]
            exact ⟨rfl, rfl⟩
          | succ m2 =>
            have hne : ¬ i = steps - 1 := by omega
            rw [if_neg (fun h => h.elim (fun hf => Bool.noConfusion hf) hne), List.nil_append]
            exact ih (step3 g) _ (i + 1) (by omega)

/-! ### Run-level rendering facts. -/

theorem run2_norm_frames (g : Grid) (steps : Nat) (detect : Bool) :
    frameLabels (run2 g steps false detect).events =
      List.range ((run2 g steps false detect).done + 1) := by
  have hev : (run2 g steps false detect).events =
      [Ev.frame 0 g.cells] ++
        (run2Loop detect false g (if detect then [hashState g] else []) 1 steps).events ++
        [] := rfl
  have hdn : (run2 g steps false detect).done =
      (run2Loop detect false g (if detect then [hashState g] else []) 1 steps).done := rfl
  rw [hev, hdn, List.append_nil, frameLabels_append,
    run2Loop_frames_norm detect steps g (if detect then [hashState g] else []) 1,
    List.range_eq_range', List.range'_succ]
  simp [frameLabels, frameLabel]

theorem run3_norm_frames (g : Grid) (steps : Nat) (detect : Bool) :
    frameLabels (run3 g steps false detect).events =
      List.range ((run3 g steps false detect).done + 1) := by
  have hev : (run3 g steps false detect).events =
      [Ev.frame 0 g.cells] ++ (run3Loop detect false steps g [] 0 steps).events := rfl
  have hdn : (run3 g steps false detect).done =
      (run3Loop detect false steps g [] 0 steps).done := rfl
  rw [hev, hdn, frameLabels_append, run3Loop_frames_norm detect steps steps g [] 0,
    List.range_eq_range', List.range'_succ]
  simp [frameLabels, frameLabel]

theorem run2_fin_frames (g : Grid) (steps : Nat) (detect : Bool) :
    framesOf (run2 g steps true detect).events =
      (match (run2 g steps true detect).status with
       | Status.completed => [(steps, (run2 g steps true detect).grid.cells)]
       | _ => []) ∧
    rendersOf (run2 g steps true detect).events =
      (match (run2 g steps true detect).status with
       | Status.completed => [Ev.finalFrame steps (run2 g steps true detect).grid.cells]
       | Status.stoppedByCycle _ => [Ev.boardOnly (run2 g steps true detect).grid.cells]
       | _ => []) := by
  obtain ⟨hfr, hrd, hor⟩ :=
    run2Loop_frames_fin detect steps g (if detect then [hashState g] else []) 1
  have hev : (run2 g steps true detect).events =
      (run2Loop detect true g (if detect then [hashState g] else []) 1 steps).events ++
        (if (true : Bool) = true ∧
            (run2Loop detect true g (if detect then [hashState g] else []) 1 steps).status =
              Status.completed then
          [Ev.finalFrame steps
            (run2Loop detect true g (if detect then [hashState g] else []) 1 steps).grid.cells]
         else []) := rfl
  have hst : (run2 g steps true detect).status =
      (run2Loop detect true g (if detect then [hashState g] else []) 1 steps).status := rfl
  have hgr : (run2 g steps true detect).grid =
      (run2Loop detect true g (if detect then [hashState g] else []) 1 steps).grid := rfl
  rw [hev, hst, hgr, framesOf_append, rendersOf_append, hfr, hrd]
  rcases hor with hc | ⟨u, hc⟩
  · rw [hc, if_pos ⟨rfl, rfl⟩]
    exact ⟨rfl, rfl⟩
  · rw [hc, if_neg (fun hx => absurd hx.2 (by simp))]
    exact ⟨rfl, rfl⟩

theorem run3_fin_frames (g : Grid) (steps : Nat) (detect : Bool) (hs : 1 ≤ steps) :
    framesOf (run3 g steps true detect).events =
      (match (run3 g steps true detect).status with
       | Status.completed => [(steps, (run3 g steps true detect).grid.cells)]
       | Status.stoppedByCycle _ => []
       | Status.stoppedStatic s2 => [(s2, (run3 g steps true detect).grid.cells)]
       | Status.stoppedEmpty s2 => [(s2, (run3 g steps true detect).grid.cells)]) ∧
    rendersOf (run3 g steps true detect).events =
      (framesOf (run3 g steps true detect).events).map (fun p => Ev.frame p.1 p.2) := by
  obtain ⟨hfr, hrd⟩ := run3Loop_frames_fin detect steps steps g [] 0 (by omega)
  have hev : (run3 g steps true detect).events =
      (run3Loop detect true steps g [] 0 steps).events := rfl
  have hst : (run3 g steps true detect).status =
      (run3Loop detect true steps g [] 0 steps).status := rfl
  have hgr : (run3 g steps true detect).grid =
      (run3Loop detect true steps g [] 0 steps).grid := rfl
  rw [hev, hst, hgr, hrd, hfr, if_neg (by omega)]
  exact ⟨rfl, rfl⟩

/-! ### The claims. -/

/-- Claim C1 (confirmed): for every grid with in-range cell `(i, j)`, one call
to `step` makes the cell's next-generation state alive iff the count of alive
cells among its eight toroidal neighbors is exactly 3, or the cell is alive
and the count is exactly 2; otherwise dead.  The result is the new (next)
buffer returned by the pure `step`, and its reads are all from the unchanged
argument grid, which is the double-buffer discipline. -/
theorem c1_transition_rule (g : Grid) (i j : Nat) (hi : i < g.rows) (hj : j < g.cols) :
    (step2 g).rows = g.rows ∧ (step2 g).cols = g.cols ∧
    (cellAt (step2 g) i j = true ↔
      (countSpec g i j = 3 ∨ (cellAt g i j = true ∧ countSpec g i j = 2))) := by
  refine ⟨rfl, rfl, ?_⟩
  rw [cellAt_step2 g i j hi hj, countSpec_eq_count2 g i j hi hj]
  unfold nextCell2
  simp

/-- Claim C1, witness at the blinker grid and cell (1, 2). -/
theorem c1_transition_rule_witness :
    (1 < blinker.rows ∧ 2 < blinker.cols) ∧
      ((step2 blinker).rows = blinker.rows ∧ (step2 blinker).cols = blinker.cols ∧
        (cellAt (step2 blinker) 1 2 = true ↔
          (countSpec blinker 1 2 = 3 ∨
            (cellAt blinker 1 2 = true ∧ countSpec blinker 1 2 = 2)))) :=
  ⟨⟨by decide, by decide⟩, c1_transition_rule blinker 1 2 (by decide) (by decide)⟩

/-- Claim C10 (confirmed): the three `step` implementations compute the same
next-generation grid from every identical (rows, cols, current-buffer) state. -/
theorem c10_variants_agree (g : Grid) : step1 g = step2 g ∧ step3 g = step2 g :=
  ⟨step1_eq_step2 g, step3_eq_step2 g⟩

/-- Claim C9 (confirmed): the fingerprint starts from the fixed 64-bit seed,
combines `rows` then `cols` before any cell content, then folds in the
row-major cell stream packed 64 cells per word including a final partial word;
consequently two grids with identical flattened bits but swapped rows/cols
generally differ, witnessed by the concrete 1x2 versus 2x1 pair. -/
theorem c9_fingerprint_structure :
    (∀ g : Grid,
        hashState g =
          ((chunks64 g.cells).map packWord).foldl hash_combine
            (hash_combine (hash_combine seedHash g.rows) g.cols)) ∧
      hashState ⟨1, 2, [true, false]⟩ ≠ hashState ⟨2, 1, [true, false]⟩ :=
  ⟨hashState_chunks, by decide⟩

/-- Claim C7 (confirmed): the 3-cell blinker on a 6x6 toroidal grid returns
exactly to its original configuration after 2 steps (and not after 1), its
fingerprint at generation 2 equals the one at generation 0, and a variant-1
run with cycle detection reports the cycle at generation 2. -/
theorem c7_blinker_oscillation :
    iter1 blinker 2 = blinker ∧ step1 blinker ≠ blinker ∧
      hashState (iter1 blinker 2) = hashState blinker ∧
      (run1 blinker 5 false true).status = Status.stoppedByCycle 2 := by
  refine ⟨by decide, by decide, by decide, by decide⟩

/-- Claim C8 (confirmed): the run is a deterministic function of the grid
shape, the random bits drawn at initialization (exactly one per cell, so only
the first `rows*cols` bits matter), and the option flags: two runs whose bit
sources agree on those draws produce identical outputs and identical
fingerprint sequences.  The seeded `mt19937_64` supplying the bits is the
external deterministic source selected by `--seed`. -/
theorem c8_deterministic (rows cols steps : Nat) (fin detect : Bool)
    (bits1 bits2 : Nat → Bool) (h : ∀ n, n < rows * cols → bits1 n = bits2 n) :
    run2 (initGrid rows cols bits1) steps fin detect =
        run2 (initGrid rows cols bits2) steps fin detect ∧
      hashSeq (initGrid rows cols bits1) steps =
        hashSeq (initGrid rows cols bits2) steps := by
  have hg : initGrid rows cols bits1 = initGrid rows cols bits2 := by
    unfold initGrid
    refine congrArg (Grid.mk rows cols) ?_
    apply List.map_congr_left
    intro a ha
    exact h a (List.mem_range.mp ha)
  rw [hg]
  exact ⟨rfl, rfl⟩

/-- Claim C8, witness: two concretely different bit sources agreeing below
`2*2` give identical runs on a 2x2 grid. -/
theorem c8_deterministic_witness :
    (∀ n, n < 2 * 2 → bitsA n = bitsB n) ∧
      run2 (initGrid 2 2 bitsA) 3 false false = run2 (initGrid 2 2 bitsB) 3 false false :=
  ⟨by decide, (c8_deterministic 2 2 3 false false bitsA bitsB (by decide)).1⟩

/-- Claim C4 (confirmed): with cycle detection disabled, whenever the
fingerprint before a transition equals the fingerprint after it, the variant-3
run stops in `StoppedStatic` at that generation boundary (generation `i + 1`
if the transition was iteration `i`), never continuing past it. -/
theorem c4_static_stop (g : Grid) (hist : List Nat) (fin : Bool) (steps i rem : Nat)
    (h : hashState g = hashState (step3 g)) :
    (run3Loop false fin steps g hist i (rem + 1)).status = Status.stoppedStatic (i + 1) ∧
      (run3Loop false fin steps g hist i (rem + 1)).grid = step3 g ∧
      (run3Loop false fin steps g hist i (rem + 1)).events =
        [Ev.staticNotice (i + 1)] ++
          (if fin then [Ev.frame (i + 1) (step3 g).cells] else []) := by
  have h1 : ¬((false : Bool) = true ∧ hashState g ∈ hist) := fun hx => Bool.noConfusion hx.1
  rw [run3Loop_succ_static false fin steps g hist i rem h1 ⟨rfl, h⟩]
  exact ⟨rfl, rfl, rfl⟩

/-- Claim C4, witness at the all-dead 2x2 grid. -/
theorem c4_static_stop_witness :
    hashState (deadGrid 2 2) = hashState (step3 (deadGrid 2 2)) ∧
      (run3Loop false false 5 (deadGrid 2 2) [] 0 5).status = Status.stoppedStatic 1 :=
  ⟨by decide, (c4_static_stop (deadGrid 2 2) [] false 5 0 4 (by decide)).1⟩

/-- Claim C6, counterexample to the final clause: on the all-dead 2x2 grid
with cycle detection disabled the variant-3 run stops `StoppedStatic` at
generation 1 (the static check precedes the empty check and an all-dead board
is static), not `StoppedEmpty`; the emitted events show only the static
notice. -/
theorem c6_counterexample :
    (run3 (deadGrid 2 2) 3 false false).status = Status.stoppedStatic 1 ∧
      (run3 (deadGrid 2 2) 3 false false).status ≠ Status.stoppedEmpty 1 ∧
      (run3 (deadGrid 2 2) 3 false false).events =
        [Ev.frame 0 (List.replicate 4 false), Ev.staticNotice 1] := by
  refine ⟨by decide, by decide, by decide⟩

/-- Claim C6 (corrected): the all-dead grid of any positive shape is a fixed
point of `step` for any number of generations and its fingerprint is constant
across generations; but a run on it with cycle detection disabled reports
`StoppedStatic` at generation 1 (not `StoppedEmpty`: the static-board check
runs first and breaks out of the loop before the empty-board check). -/
theorem c6_dead_grid (r c steps : Nat) (fin : Bool) (hr : 0 < r) (hc : 0 < c)
    (hs : 1 ≤ steps) :
    (∀ n, iter3 (deadGrid r c) n = deadGrid r c) ∧
      (∀ n, hashState (iter3 (deadGrid r c) n) = hashState (deadGrid r c)) ∧
      (run3 (deadGrid r c) steps fin false).status = Status.stoppedStatic 1 := by
  refine ⟨iter3_dead r c, fun n => by rw [iter3_dead r c n], ?_⟩
  obtain ⟨k, rfl⟩ : ∃ k, steps = k + 1 := ⟨steps - 1, by omega⟩
  have hst : (run3 (deadGrid r c) (k + 1) fin false).status =
      (run3Loop false fin (k + 1) (deadGrid r c) [] 0 (k + 1)).status := rfl
  have h1 : ¬((false : Bool) = true ∧ hashState (deadGrid r c) ∈ ([] : List Nat)) :=
    fun hx => Bool.noConfusion hx.1
  have h2 : (false : Bool) = false ∧
      hashState (deadGrid r c) = hashState (step3 (deadGrid r c)) :=
    ⟨rfl, by rw [step3_dead]⟩
  rw [hst, run3Loop_succ_static false fin (k + 1) (deadGrid r c) [] 0 k h1 h2]

/-- Claim C6, witness at the 2x2 shape with 3 requested generations. -/
theorem c6_dead_grid_witness :
    (0 < 2 ∧ 1 ≤ 3) ∧
      (run3 (deadGrid 2 2) 3 false false).status = Status.stoppedStatic 1 :=
  ⟨⟨by decide, by decide⟩, (c6_dead_grid 2 2 3 false (by decide) (by decide) (by decide)).2.2⟩

/-- Claim C5, counterexample: the post-transition buffer of the all-dead 2x2
grid has no live cell, yet with cycle detection disabled the engine stops with
the static notice, not the empty-board notice, because the static check runs
first — so "stops with the empty-board notice iff the post-transition buffer
is all dead" fails. -/
theorem c5_counterexample :
    isEmptyBoard (step3 (deadGrid 2 2)) = true ∧
      (run3 (deadGrid 2 2) 3 false false).status = Status.stoppedStatic 1 ∧
      (run3 (deadGrid 2 2) 3 false false).events =
        [Ev.frame 0 (List.replicate 4 false), Ev.staticNotice 1] := by
  refine ⟨by decide, by decide, by decide⟩

/-- Claim C5 (corrected): at any iteration of the variant-3 loop, the run
stops with `StoppedEmpty` at that generation boundary iff the cycle check did
not fire, the static check did not fire (with detection disabled this
requires the pre- and post-transition fingerprints to differ, so an all-dead
fixed point stops as static instead), and the new state's fingerprint is 0 or
its buffer is entirely dead.  With cycle detection enabled the static check
never fires, so the empty-board check is reached at every completed
transition. -/
theorem c5_empty_stop (detect fin : Bool) (steps : Nat) (g : Grid) (hist : List Nat)
    (i rem : Nat) :
    (run3Loop detect fin steps g hist i (rem + 1)).status = Status.stoppedEmpty (i + 1) ↔
      (¬(detect = true ∧ hashState g ∈ hist) ∧
        ¬(detect = false ∧ hashState g = hashState (step3 g)) ∧
        (hashState (step3 g) = 0 ∨ isEmptyBoard (step3 g) = true)) := by
  constructor
  · intro hst
    by_cases h1 : detect = true ∧ hashState g ∈ hist
    · rw [run3Loop_succ_cycle detect fin steps g hist i rem h1] at hst
      exact absurd hst (by simp)
    · by_cases h2 : detect = false ∧ hashState g = hashState (step3 g)
      · rw [run3Loop_succ_static detect fin steps g hist i rem h1 h2] at hst
        exact absurd hst (by simp)
      · by_cases h3 : hashState (step3 g) = 0 ∨ isEmptyBoard (step3 g) = true
        · exact ⟨h1, h2, h3⟩
        · rw [run3Loop_succ_go detect fin steps g hist i rem h1 h2 h3] at hst
          simp only at hst
          have hb := (run3Loop_gen_bound detect fin steps rem (step3 g)
            (if detect then hashState g :: hist else hist) (i + 1)).2.2 (i + 1) hst
          omega
  · intro ⟨h1, h2, h3⟩
    rw [run3Loop_succ_empty detect fin steps g hist i rem h1 h2 h3]

/-- Claim C3 (confirmed): with cycle detection enabled, a variant-2 run stops
with the cycle notice exactly at the first generation whose fingerprint was
already produced by an earlier generation, and otherwise inserts the
fingerprint and continues; the visited set only ever grows (every loop state's
set is a suffix of the final one), on a cycle stop it holds exactly the
fingerprints of generations before the repeat, after completion it holds all
of them, and it is always duplicate-free. -/
theorem c3_cycle_detection (g : Grid) (steps : Nat) (fin : Bool) :
    (∀ (detect2 fin2 : Bool) (g2 : Grid) (hist : List Nat) (t rem : Nat),
        hist.IsSuffix (run2Loop detect2 fin2 g2 hist t rem).hist) ∧
      (∀ t, (run2 g steps fin true).status = Status.stoppedByCycle t ↔
        (1 ≤ t ∧ t ≤ steps ∧ dupAt g t ∧ ∀ u, u < t → ¬ dupAt g u)) ∧
      (∀ t, (run2 g steps fin true).status = Status.stoppedByCycle t →
        (run2 g steps fin true).hist = histUpTo g t) ∧
      ((run2 g steps fin true).status = Status.completed →
        (run2 g steps fin true).hist = histUpTo g (steps + 1)) ∧
      (run2 g steps fin true).hist.Nodup := by
  have hyp0 : ∀ u, u ≤ 0 → ¬ dupAt g u := by
    intro u hu
    have hu0 : u = 0 := by omega
    rw [hu0]
    unfold dupAt
    simp
  obtain ⟨hComp, hCyc, hCycIntro, hOr⟩ := run2Loop_cycle_spec g fin steps 0 hyp0
  have hst : (run2 g steps fin true).status =
      (run2Loop true fin (iter2 g 0) (histUpTo g (0 + 1)) (0 + 1) steps).status := rfl
  have hhi : (run2 g steps fin true).hist =
      (run2Loop true fin (iter2 g 0) (histUpTo g (0 + 1)) (0 + 1) steps).hist := rfl
  refine ⟨fun d2 f2 g2 hist t rem => run2Loop_hist_suffix d2 f2 rem g2 hist t, ?_, ?_, ?_, ?_⟩
  · intro t
    rw [hst]
    constructor
    · intro h
      have h2 := (hCyc t h).1
      exact ⟨by omega, by omega, h2.2.2.1, h2.2.2.2⟩
    · intro ⟨h1, h2, hdt, hmin⟩
      exact hCycIntro t ⟨by omega, by omega, hdt, hmin⟩
  · intro t h
    rw [hst] at h
    rw [hhi]
    exact (hCyc t h).2
  · intro h
    rw [hst] at h
    rw [hhi, (hComp h).1]
    congr 1
    omega
  · rw [hhi]
    rcases hOr with hc | ⟨t, hc⟩
    · rw [(hComp hc).1]
      exact nodup_histUpTo g (0 + steps + 1) (fun u hu => (hComp hc).2 u (by omega))
    · rw [(hCyc t hc).2]
      exact nodup_histUpTo g t (hCyc t hc).1.2.2.2

/-- Claim C3, witness: the blinker run stops by cycle at generation 2, via the
first-duplicate characterization. -/
theorem c3_cycle_detection_witness :
    (run2 blinker 5 false true).status = Status.stoppedByCycle 2 :=
  ((c3_cycle_detection blinker 5 false).2.1 2).mpr
    ⟨by decide, by decide, by decide, by decide⟩

/-- Claim C2, counterexample: in final-only mode, variant 2's cycle-detected
stop does NOT render nothing — after the notice it displays the board with no
frame header (`if (printFinalOnly) display();`), as the concrete all-dead 1x1
run shows. -/
theorem c2_counterexample :
    (run2 (deadGrid 1 1) 3 true true).status = Status.stoppedByCycle 1 ∧
      (run2 (deadGrid 1 1) 3 true true).events =
        [Ev.cycleNotice 1, Ev.boardOnly [false]] ∧
      rendersOf (run2 (deadGrid 1 1) 3 true true).events = [Ev.boardOnly [false]] := by
  refine ⟨by decide, by decide, by decide⟩

/-- Claim C2 (corrected): without final-only mode the emitted frames of both
run variants are exactly generations `0 .. done` in order, where `done` counts
the generations completed without triggering a stop.  In final-only mode:
variant 2 emits exactly one labeled frame (the requested final generation)
when the run completes, and on a cycle stop emits no labeled frame but — 
contrary to the claim's "renders nothing" — displays the bare stopping board
after the notice; variant 3 on a completed run emits exactly the frame labeled
`steps`, on a cycle stop renders nothing, and on a static- or empty-board stop
renders exactly the board that triggered the stop, labeled with its
generation. -/
theorem c2_rendering_matrix (g : Grid) (steps : Nat) (detect : Bool) (hs : 1 ≤ steps) :
    frameLabels (run2 g steps false detect).events =
        List.range ((run2 g steps false detect).done + 1) ∧
      frameLabels (run3 g steps false detect).events =
        List.range ((run3 g steps false detect).done + 1) ∧
      framesOf (run2 g steps true detect).events =
        (match (run2 g steps true detect).status with
         | Status.completed => [(steps, (run2 g steps true detect).grid.cells)]
         | _ => []) ∧
      rendersOf (run2 g steps true detect).events =
        (match (run2 g steps true detect).status with
         | Status.completed => [Ev.finalFrame steps (run2 g steps true detect).grid.cells]
         | Status.stoppedByCycle _ => [Ev.boardOnly (run2 g steps true detect).grid.cells]
         | _ => []) ∧
      framesOf (run3 g steps true detect).events =
        (match (run3 g steps true detect).status with
         | Status.completed => [(steps, (run3 g steps true detect).grid.cells)]
         | Status.stoppedByCycle _ => []
         | Status.stoppedStatic s2 => [(s2, (run3 g steps true detect).grid.cells)]
         | Status.stoppedEmpty s2 => [(s2, (run3 g steps true detect).grid.cells)]) ∧
      rendersOf (run3 g steps true detect).events =
        (framesOf (run3 g steps true detect).events).map (fun p => Ev.frame p.1 p.2) :=
  ⟨run2_norm_frames g steps detect, run3_norm_frames g steps detect,
    (run2_fin_frames g steps detect).1, (run2_fin_frames g steps detect).2,
    (run3_fin_frames g steps detect hs).1, (run3_fin_frames g steps detect hs).2⟩

/-- Claim C2, witness at the all-dead 2x2 grid with 3 requested generations. -/
theorem c2_rendering_matrix_witness :
    1 ≤ 3 ∧
      frameLabels (run2 (deadGrid 2 2) 3 false false).events =
        List.range ((run2 (deadGrid 2 2) 3 false false).done + 1) :=
  ⟨by decide, (c2_rendering_matrix (deadGrid 2 2) 3 false (by decide)).1⟩
